import Mathlib

/-!
Verification of the core flow-specification logic of `metaflow/flowspec.py`:
the artifact-merge resolver (`merge_artifacts`), the transition validator
(`FlowSpec.next` and `_validate_ubf_step`), the foreach context
(`foreach_stack`, `index`, `input`, `_find_input`), and the
config-mutation pipeline latch (`_process_config_decorators`).

Artifact contents are abstracted by their content fingerprint (the `sha`
that `merge_artifacts` actually compares); datastores are insertion-ordered
association lists, mirroring Python dictionaries.
-/

set_option autoImplicit false

namespace Metaflow

/-- The reserved internal artifact names `INTERNAL_ARTIFACTS_SET` (flowspec.py
lines 46-54): internal
artifact names used for foreach bookkeeping. -/
def INTERNAL_ARTIFACTS_SET : List String :=
  ["_foreach_values", "_unbounded_foreach", "_control_mapper_tasks",
   "_control_task_is_mapper_zero", "_parallel_ubf_iter"]

/-- First-match lookup in an insertion-ordered association list; models lookup in a
Python dict represented by its ordered `(key, value)` items. -/
def lookupStr : List (String × Nat) → String → Option Nat
  | [], _ => none
  | p :: rest, k => if p.1 = k then some p.2 else lookupStr rest k

/-- One inbound branch at a join point: the `(artifact name, content sha)` pairs
of `inp._datastore.items()`, in enumeration order. -/
structure Inp where
  artifacts : List (String × Nat)
  deriving Repr, DecidableEq

/-- The per-branch candidate filter of `merge_artifacts` (flowspec.py lines 693-707):
with a non-empty `include` list, keep artifacts whose name is in `include` and not
already set on `self`; otherwise keep artifacts whose name is not in `exclude`, not
already set on `self`, and not in `INTERNAL_ARTIFACTS_SET`.  `selfVars` is the set of
names for which `hasattr(self, var)` holds. -/
def availableVars (selfVars incl excl : List String) (inp : Inp) : List (String × Nat) :=
  if incl.isEmpty then
    inp.artifacts.filter (fun p =>
      !(excl.contains p.1) && !(selfVars.contains p.1)
        && !(INTERNAL_ARTIFACTS_SET.contains p.1))
  else
    inp.artifacts.filter (fun p => incl.contains p.1 && !(selfVars.contains p.1))

/-- The full stream of merge candidates, in processing order: the outer loop
`for inp in inputs` with the inner loop over `available_vars`. -/
def candidateStream (selfVars : List String) (inputs : List Inp)
    (excl incl : List String) : List (String × Nat) :=
  inputs.flatMap (availableVars selfVars incl excl)

/-- Accumulator of the candidate loop of `merge_artifacts` (flowspec.py lines 690-712):
`toMerge` models the insertion-ordered dict `to_merge` (keeping, per name, the sha of
the first branch that produced it, via `setdefault`), and `unresolved` the list of
conflict occurrences, in discovery order. -/
structure MergeAcc where
  toMerge : List (String × Nat)
  unresolved : List String
  deriving Repr, DecidableEq

/-- One iteration of the candidate loop: `to_merge.setdefault(var, (inp, sha))`
followed by the conflict check `previous_sha != sha`. -/
def mergeStep (acc : MergeAcc) (p : String × Nat) : MergeAcc :=
  match lookupStr acc.toMerge p.1 with
  | none => { acc with toMerge := acc.toMerge ++ [p] }
  | some prev => if prev ≠ p.2 then { acc with unresolved := acc.unresolved ++ [p.1] } else acc

/-- The whole candidate loop over a candidate stream. -/
def mergeFold (cands : List (String × Nat)) : MergeAcc :=
  cands.foldl mergeStep ⟨[], []⟩

/-- The errors `merge_artifacts` can raise: not-a-join (`MetaflowException`),
mutually exclusive `include`/`exclude` (`MetaflowException`), unresolved conflicts
(`UnhandledInMergeArtifactsException`, carrying the conflicting names), and missing
included names (`MissingInMergeArtifactsException`, carrying the missing names). -/
inductive MergeErr where
  | notJoin (step : String)
  | mutuallyExclusive
  | unhandled (unresolved : List String)
  | missingArtifacts (names : List String)
  deriving Repr, DecidableEq

/-- The missing-include check of `merge_artifacts` (flowspec.py lines 713-717):
included names absent from both `to_merge` and the current instance. -/
def missingOf (selfVars incl : List String) (acc : MergeAcc) : List String :=
  incl.filter (fun v => (lookupStr acc.toMerge v).isNone && !(selfVars.contains v))

/-- The error/commit tail of `merge_artifacts` (flowspec.py lines 718-742): report
conflicts first, then missing included names, else commit `to_merge`. -/
def mergeResolve (selfVars incl : List String) (acc : MergeAcc) :
    Except MergeErr (List (String × Nat)) :=
  if acc.unresolved ≠ [] then .error (.unhandled acc.unresolved)
  else if missingOf selfVars incl acc ≠ [] then .error (.missingArtifacts (missingOf selfVars incl acc))
  else .ok acc.toMerge

/-- Model of `FlowSpec.merge_artifacts` (flowspec.py lines 620-742), abstracted over artifact
contents: given the current node's `type`, the current step name, the names already
set on `self`, the inbound branches, and the `exclude`/`include` lists
(`[]` models an absent argument), return the ordered list of `(name, sha)` artifacts
passed down to the current step's datastore, or the error raised.  All raises happen
before the final passdown loop, so an error implies nothing is copied. -/
def merge_artifacts (nodeType step : String) (selfVars : List String)
    (inputs : List Inp) (excl incl : List String) :
    Except MergeErr (List (String × Nat)) :=
  if nodeType ≠ "join" then .error (.notJoin step)
  else if 0 < excl.length ∧ 0 < incl.length then .error .mutuallyExclusive
  else mergeResolve selfVars incl (mergeFold (candidateStream selfVars inputs excl incl))

/-- The function `merge_artifacts` as a transformer of the current step's datastore `ds`:
on success the resolved artifacts are appended (the `passdown_partial` loop,
flowspec.py lines 740-742); on failure the raise happens before any passdown,
so `ds` is returned unchanged together with the error. -/
def mergeRun (ds : List (String × Nat)) (nodeType step : String) (selfVars : List String)
    (inputs : List Inp) (excl incl : List String) :
    List (String × Nat) × Option MergeErr :=
  match merge_artifacts nodeType step selfVars inputs excl incl with
  | .ok copied => (ds ++ copied, none)
  | .error e => (ds, some e)

/-- A name has conflicting values in a candidate stream: two candidate entries
carry it with different shas. -/
def HasConflict (cands : List (String × Nat)) (v : String) : Prop :=
  ∃ s₁ s₂, (v, s₁) ∈ cands ∧ (v, s₂) ∈ cands ∧ s₁ ≠ s₂

/-- Lookup preferring the accumulated `toMerge` dict over the first occurrence in the
remaining candidate stream. -/
def lookupFirst (tm cands : List (String × Nat)) (v : String) : Option Nat :=
  match lookupStr tm v with
  | some s₀ => some s₀
  | none => lookupStr cands v

theorem lookupStr_isSome_of_mem {l : List (String × Nat)} {v : String} {s : Nat}
    (h : (v, s) ∈ l) : ∃ s₀, lookupStr l v = some s₀ := by
  induction l with
  | nil => simp at h
  | cons p rest ih =>
    rcases List.mem_cons.mp h with h | h
    · exact ⟨p.2, by simp [lookupStr, ← h]⟩
    · by_cases hp : p.1 = v
      · exact ⟨p.2, by simp [lookupStr, hp]⟩
      · obtain ⟨s₀, hs₀⟩ := ih h
        exact ⟨s₀, by simp [lookupStr, hp, hs₀]⟩

theorem mem_of_lookupStr_eq_some {l : List (String × Nat)} {v : String} {s₀ : Nat}
    (h : lookupStr l v = some s₀) : (v, s₀) ∈ l := by
  induction l with
  | nil => simp [lookupStr] at h
  | cons p rest ih =>
    by_cases hp : p.1 = v
    · simp [lookupStr, hp] at h
      subst hp
      simp [← h]
    · simp [lookupStr, hp] at h
      exact List.mem_cons_of_mem _ (ih h)

theorem lookupStr_eq_none {l : List (String × Nat)} {v : String}
    (h : ∀ s, (v, s) ∉ l) : lookupStr l v = none := by
  rcases hl : lookupStr l v with _ | s₀
  · rfl
  · exact absurd (mem_of_lookupStr_eq_some hl) (h s₀)

theorem lookupStr_append (l₁ l₂ : List (String × Nat)) (v : String) :
    lookupStr (l₁ ++ l₂) v =
      (match lookupStr l₁ v with
       | some s => some s
       | none => lookupStr l₂ v) := by
  induction l₁ with
  | nil => simp [lookupStr]
  | cons p rest ih => by_cases hp : p.1 = v <;> simp [lookupStr, hp, ih]

/-- A conflict for `v` is the same as a candidate entry for `v` whose sha differs from
the first entry's sha. -/
theorem hasConflict_iff_ne_first (cands : List (String × Nat)) (v : String) :
    HasConflict cands v ↔ ∃ s, (v, s) ∈ cands ∧ some s ≠ lookupStr cands v := by
  constructor
  · rintro ⟨s₁, s₂, h₁, h₂, hne⟩
    obtain ⟨s₀, hs₀⟩ := lookupStr_isSome_of_mem h₁
    by_cases h : s₁ = s₀
    · refine ⟨s₂, h₂, ?_⟩
      rw [hs₀]
      intro hc
      exact hne (h.trans (Option.some.inj hc).symm)
    · refine ⟨s₁, h₁, ?_⟩
      rw [hs₀]
      intro hc
      exact h (Option.some.inj hc)
  · rintro ⟨s, hs, hne⟩
    obtain ⟨s₀, hs₀⟩ := lookupStr_isSome_of_mem hs
    refine ⟨s, s₀, hs, mem_of_lookupStr_eq_some hs₀, ?_⟩
    rw [hs₀] at hne
    intro hc
    exact hne (by rw [hc])

/-- Invariant of the candidate loop: a name is in the final `unresolved` list exactly
when it was already there or some remaining candidate entry for it differs from its
first recorded sha. -/
theorem mem_unresolved_foldl (cands : List (String × Nat)) :
    ∀ (tm : List (String × Nat)) (ur : List String) (v : String),
      v ∈ (cands.foldl mergeStep ⟨tm, ur⟩).unresolved ↔
        v ∈ ur ∨ ∃ s, (v, s) ∈ cands ∧ some s ≠ lookupFirst tm cands v := by
  induction cands with
  | nil => intro tm ur v; simp
  | cons hd rest ih =>
    intro tm ur v
    obtain ⟨w, t⟩ := hd
    rw [List.foldl_cons]
    by_cases hvw : w = v
    · subst hvw
      rcases htm : lookupStr tm w with _ | prev
      · -- first occurrence of the queried name: recorded in toMerge
        have hstep : mergeStep ⟨tm, ur⟩ (w, t) = ⟨tm ++ [(w, t)], ur⟩ := by
          simp [mergeStep, htm]
        rw [hstep, ih]
        have h₁ : lookupFirst (tm ++ [(w, t)]) rest w = some t := by
          have happ : lookupStr (tm ++ [(w, t)]) w = some t := by
            rw [lookupStr_append, htm]
            simp [lookupStr]
          simp [lookupFirst, happ]
        have h₂ : lookupFirst tm ((w, t) :: rest) w = some t := by
          simp [lookupFirst, htm, lookupStr]
        rw [h₁, h₂]
        constructor
        · rintro (h | ⟨s, hs, hne⟩)
          · exact Or.inl h
          · exact Or.inr ⟨s, List.mem_cons_of_mem _ hs, hne⟩
        · rintro (h | ⟨s, hs, hne⟩)
          · exact Or.inl h
          · rcases List.mem_cons.mp hs with h | h
            · exact absurd (congrArg (fun p => some p.2) h) hne
            · exact Or.inr ⟨s, h, hne⟩
      · by_cases hpt : prev = t
        · -- repeated occurrence with the same sha: no-op
          have hstep : mergeStep ⟨tm, ur⟩ (w, t) = ⟨tm, ur⟩ := by
            simp [mergeStep, htm, hpt]
          rw [hstep, ih]
          have h₁ : lookupFirst tm rest w = some prev := by simp [lookupFirst, htm]
          have h₂ : lookupFirst tm ((w, t) :: rest) w = some prev := by
            simp [lookupFirst, htm]
          rw [h₁, h₂]
          subst hpt
          constructor
          · rintro (h | ⟨s, hs, hne⟩)
            · exact Or.inl h
            · exact Or.inr ⟨s, List.mem_cons_of_mem _ hs, hne⟩
          · rintro (h | ⟨s, hs, hne⟩)
            · exact Or.inl h
            · rcases List.mem_cons.mp hs with h | h
              · exact absurd (congrArg (fun p => some p.2) h) hne
              · exact Or.inr ⟨s, h, hne⟩
        · -- conflicting occurrence: appended to unresolved
          have hstep : mergeStep ⟨tm, ur⟩ (w, t) = ⟨tm, ur ++ [w]⟩ := by
            simp [mergeStep, htm, hpt]
          rw [hstep, ih]
          have h₂ : lookupFirst tm ((w, t) :: rest) w = some prev := by
            simp [lookupFirst, htm]
          rw [h₂]
          constructor
          · intro _h
            refine Or.inr ⟨t, List.mem_cons_self _ _, ?_⟩
            intro hc
            exact hpt (Option.some.inj hc).symm
          · intro _h
            exact Or.inl (List.mem_append.mpr (Or.inr (by simp)))
    · -- the head's key differs from the queried name
      have hvw' : v ≠ w := fun h => hvw h.symm
      have hmem : ∀ s : Nat, ((v, s) ∈ (w, t) :: rest) ↔ (v, s) ∈ rest := by
        intro s
        constructor
        · intro h
          rcases List.mem_cons.mp h with h | h
          · exact absurd (congrArg Prod.fst h) hvw'
          · exact h
        · exact List.mem_cons_of_mem _
      have hcons : lookupStr ((w, t) :: rest) v = lookupStr rest v := by
        simp [lookupStr, hvw]
      rcases htm : lookupStr tm w with _ | prev
      · have hstep : mergeStep ⟨tm, ur⟩ (w, t) = ⟨tm ++ [(w, t)], ur⟩ := by
          simp [mergeStep, htm]
        rw [hstep, ih]
        have happ : lookupStr (tm ++ [(w, t)]) v = lookupStr tm v := by
          rw [lookupStr_append]
          rcases h : lookupStr tm v with _ | s <;> simp [lookupStr, hvw]
        have h₁ : lookupFirst (tm ++ [(w, t)]) rest v = lookupFirst tm ((w, t) :: rest) v := by
          simp [lookupFirst, happ, hcons]
        rw [h₁]
        simp only [hmem]
      · by_cases hpt : prev = t
        · have hstep : mergeStep ⟨tm, ur⟩ (w, t) = ⟨tm, ur⟩ := by
            simp [mergeStep, htm, hpt]
          rw [hstep, ih]
          have h₁ : lookupFirst tm rest v = lookupFirst tm ((w, t) :: rest) v := by
            simp [lookupFirst, hcons]
          rw [h₁]
          simp only [hmem]
        · have hstep : mergeStep ⟨tm, ur⟩ (w, t) = ⟨tm, ur ++ [w]⟩ := by
            simp [mergeStep, htm, hpt]
          rw [hstep, ih]
          have h₁ : lookupFirst tm rest v = lookupFirst tm ((w, t) :: rest) v := by
            simp [lookupFirst, hcons]
          rw [h₁]
          simp only [hmem, List.mem_append, List.mem_singleton, hvw', or_false]

/-- Names reported by the candidate loop are exactly the conflicting names. -/
theorem mem_mergeFold_unresolved (cands : List (String × Nat)) (v : String) :
    v ∈ (mergeFold cands).unresolved ↔ HasConflict cands v := by
  rw [mergeFold, mem_unresolved_foldl cands [] [] v, hasConflict_iff_ne_first]
  simp [lookupFirst, lookupStr]

/-- Everything the candidate loop records in `toMerge` comes from the candidate
stream. -/
theorem toMerge_foldl_subset (cands : List (String × Nat)) :
    ∀ (tm : List (String × Nat)) (ur : List String) (p : String × Nat),
      p ∈ (cands.foldl mergeStep ⟨tm, ur⟩).toMerge → p ∈ tm ∨ p ∈ cands := by
  induction cands with
  | nil => intro tm ur p h; simp at h; exact Or.inl h
  | cons hd rest ih =>
    intro tm ur p h
    rw [List.foldl_cons] at h
    rcases htm : lookupStr tm hd.1 with _ | prev
    · rw [show mergeStep ⟨tm, ur⟩ hd = ⟨tm ++ [hd], ur⟩ by simp [mergeStep, htm]] at h
      rcases ih _ _ _ h with h' | h'
      · rcases List.mem_append.mp h' with h'' | h''
        · exact Or.inl h''
        · simp at h''
          exact Or.inr (by simp [h''])
      · exact Or.inr (List.mem_cons_of_mem _ h')
    · by_cases hpt : prev = hd.2
      · rw [show mergeStep ⟨tm, ur⟩ hd = ⟨tm, ur⟩ by simp [mergeStep, htm, hpt]] at h
        rcases ih _ _ _ h with h' | h'
        · exact Or.inl h'
        · exact Or.inr (List.mem_cons_of_mem _ h')
      · rw [show mergeStep ⟨tm, ur⟩ hd = ⟨tm, ur ++ [hd.1]⟩ by
            simp [mergeStep, htm, hpt]] at h
        rcases ih _ _ _ h with h' | h'
        · exact Or.inl h'
        · exact Or.inr (List.mem_cons_of_mem _ h')

/-- On a successful merge, every copied artifact comes from the candidate stream. -/
theorem merge_artifacts_ok_subset
    {nodeType step : String} {selfVars excl incl : List String} {inputs : List Inp}
    {copied : List (String × Nat)}
    (hok : merge_artifacts nodeType step selfVars inputs excl incl = .ok copied) :
    ∀ p ∈ copied, p ∈ candidateStream selfVars inputs excl incl := by
  unfold merge_artifacts at hok
  split at hok
  · exact absurd hok (by simp)
  · split at hok
    · exact absurd hok (by simp)
    · unfold mergeResolve at hok
      split at hok
      · exact absurd hok (by simp)
      · split at hok
        · exact absurd hok (by simp)
        · intro p hp
          have hcop : copied = (mergeFold (candidateStream selfVars inputs excl incl)).toMerge := by
            exact (Except.ok.inj hok).symm
          rw [hcop] at hp
          rcases toMerge_foldl_subset _ [] [] p hp with h | h
          · simp at h
          · exact h

/-! ### Claims about `merge_artifacts` -/

/-- C1 (counterexample): the claim fails in `include` mode.  `_foreach_values` is a
reserved internal artifact name, yet a call with `include = ["_foreach_values"]`
copies it into the current step's storage: the `include` branch of the candidate
filter (flowspec.py lines 694-699) does not consult `INTERNAL_ARTIFACTS_SET`. -/
theorem C1_counterexample :
    "_foreach_values" ∈ INTERNAL_ARTIFACTS_SET ∧
      merge_artifacts "join" "d" [] [⟨[("_foreach_values", 1)]⟩] [] ["_foreach_values"]
        = .ok [("_foreach_values", 1)] := by
  constructor
  · simp [INTERNAL_ARTIFACTS_SET]
  · rfl

/-- C1 (amended): when `include` is not given, reserved internal artifact names are
excluded from every branch's merge candidates and are never copied into the current
step's storage by a successful merge; when `include` is given, only the
include-membership and already-set filters apply, so an internal name listed in
`include` can be copied (see the counterexample). -/
theorem C1_internal_excluded_without_include
    (nodeType step : String) (selfVars excl : List String) (inputs : List Inp)
    (copied : List (String × Nat)) (v : String) (sha : Nat)
    (hv : v ∈ INTERNAL_ARTIFACTS_SET)
    (hok : merge_artifacts nodeType step selfVars inputs excl [] = .ok copied) :
    (∀ inp ∈ inputs, (v, sha) ∉ availableVars selfVars [] excl inp) ∧ (v, sha) ∉ copied := by
  have hav : ∀ inp ∈ inputs, (v, sha) ∉ availableVars selfVars [] excl inp := by
    intro inp _ hmem
    rw [availableVars] at hmem
    simp [List.mem_filter] at hmem
    exact hmem.2.2 hv
  refine ⟨hav, ?_⟩
  intro hmem
  have hc := merge_artifacts_ok_subset hok _ hmem
  rw [candidateStream] at hc
  obtain ⟨inp, hinp, hmem'⟩ := List.mem_flatMap.mp hc
  exact hav inp hinp hmem'

/-- Witness for the amended C1: in `exclude` mode, the internal name
`_unbounded_foreach` present on the branch is not a candidate and is not copied. -/
theorem C1_witness :
    (∀ inp ∈ [Inp.mk [("x", 1), ("_unbounded_foreach", 2)]],
        ("_unbounded_foreach", 2) ∉ availableVars [] [] ["y"] inp) ∧
      ("_unbounded_foreach", 2) ∉ [("x", 1)] :=
  C1_internal_excluded_without_include "join" "d" [] ["y"]
    [Inp.mk [("x", 1), ("_unbounded_foreach", 2)]] [("x", 1)] "_unbounded_foreach" 2
    (by simp [INTERNAL_ARTIFACTS_SET]) (by rfl)

/-- C4: an artifact name already set on the current step instance is filtered out of
the merge candidates in both `include` and `exclude` mode, so a successful merge
copies no binding for it and the current step datastore's value for it is
unchanged. -/
theorem C4_local_assignment_never_overridden
    (nodeType step : String) (selfVars excl incl : List String) (inputs : List Inp)
    (ds copied : List (String × Nat)) (v : String)
    (hv : v ∈ selfVars)
    (hok : merge_artifacts nodeType step selfVars inputs excl incl = .ok copied) :
    (∀ inp : Inp, ∀ sha : Nat, (v, sha) ∉ availableVars selfVars incl excl inp) ∧
      lookupStr (ds ++ copied) v = lookupStr ds v := by
  have hav : ∀ inp : Inp, ∀ sha : Nat, (v, sha) ∉ availableVars selfVars incl excl inp := by
    intro inp sha hmem
    rw [availableVars] at hmem
    by_cases hincl : incl.isEmpty
    · simp [hincl, List.mem_filter] at hmem
      exact hmem.2.1.2 hv
    · simp [hincl, List.mem_filter] at hmem
      exact hmem.2.2 hv
  refine ⟨hav, ?_⟩
  have hnone : lookupStr copied v = none := by
    apply lookupStr_eq_none
    intro s hmem
    have hc := merge_artifacts_ok_subset hok _ hmem
    rw [candidateStream] at hc
    obtain ⟨inp, hinp, hmem'⟩ := List.mem_flatMap.mp hc
    exact hav inp s hmem'
  rw [lookupStr_append, hnone]
  cases h : lookupStr ds v <;> simp

/-- Witness for C4: the spec's example (three branches with `x = 1, 1, 2`, the join
step pre-sets `x`): the merge succeeds, copies nothing for `x`, and leaves the
datastore binding `("x", 99)` untouched. -/
theorem C4_witness :
    (∀ inp : Inp, ∀ sha : Nat, ("x", sha) ∉ availableVars ["x"] [] [] inp) ∧
      lookupStr ([("x", 99)] ++ []) "x" = lookupStr [("x", 99)] "x" :=
  C4_local_assignment_never_overridden "join" "d" ["x"] [] []
    [⟨[("x", 1)]⟩, ⟨[("x", 1)]⟩, ⟨[("x", 2)]⟩] [("x", 99)] [] "x" (by simp) (by rfl)

/-- C3: when two branches contribute the same surviving artifact name with different
shas, `merge_artifacts` fails with the unresolved-conflict error whose payload holds
exactly the conflicting names (every one of them, not just the first); and on this
and every other failure (conflict or missing-include) the datastore transformer
returns the current step's datastore unchanged: no artifact is copied. -/
theorem C3_conflicts_reported_completely
    (step : String) (selfVars excl incl : List String) (inputs : List Inp)
    (hmx : ¬(0 < excl.length ∧ 0 < incl.length))
    (v₀ : String) (hc : HasConflict (candidateStream selfVars inputs excl incl) v₀) :
    (∃ ur, merge_artifacts "join" step selfVars inputs excl incl = .error (.unhandled ur) ∧
        (∀ v, v ∈ ur ↔ HasConflict (candidateStream selfVars inputs excl incl) v) ∧
        ∀ ds, mergeRun ds "join" step selfVars inputs excl incl = (ds, some (.unhandled ur))) ∧
      ∀ ds nt st sv ins ex inc e, merge_artifacts nt st sv ins ex inc = .error e →
        mergeRun ds nt st sv ins ex inc = (ds, some e) := by
  have hrun : ∀ ds nt st sv ins ex inc e, merge_artifacts nt st sv ins ex inc = .error e →
      mergeRun ds nt st sv ins ex inc = (ds, some e) := by
    intro ds nt st sv ins ex inc e h
    rw [mergeRun, h]
  refine ⟨?_, hrun⟩
  have hne : (mergeFold (candidateStream selfVars inputs excl incl)).unresolved ≠ [] := by
    intro h0
    have hm := (mem_mergeFold_unresolved (candidateStream selfVars inputs excl incl) v₀).mpr hc
    rw [h0] at hm
    simp at hm
  have hma : merge_artifacts "join" step selfVars inputs excl incl
      = .error (.unhandled (mergeFold (candidateStream selfVars inputs excl incl)).unresolved) := by
    unfold merge_artifacts mergeResolve
    rw [if_neg (by simp), if_neg hmx, if_pos hne]
  exact ⟨(mergeFold (candidateStream selfVars inputs excl incl)).unresolved, hma,
    fun v => mem_mergeFold_unresolved _ v,
    fun ds => by rw [mergeRun, hma]⟩

/-- Witness for C3: the spec's example — branches set `x = 1, 1, 2`, nothing pre-set:
the merge fails with the conflict error and the conflict report characterizes `x`. -/
theorem C3_witness :
    (∃ ur, merge_artifacts "join" "d" [] [⟨[("x", 1)]⟩, ⟨[("x", 1)]⟩, ⟨[("x", 2)]⟩] [] []
        = .error (.unhandled ur) ∧
        (∀ v, v ∈ ur ↔
          HasConflict (candidateStream [] [⟨[("x", 1)]⟩, ⟨[("x", 1)]⟩, ⟨[("x", 2)]⟩] [] []) v) ∧
        ∀ ds, mergeRun ds "join" "d" [] [⟨[("x", 1)]⟩, ⟨[("x", 1)]⟩, ⟨[("x", 2)]⟩] [] []
          = (ds, some (.unhandled ur))) ∧
      ∀ ds nt st sv ins ex inc e, merge_artifacts nt st sv ins ex inc = .error e →
        mergeRun ds nt st sv ins ex inc = (ds, some e) :=
  C3_conflicts_reported_completely "d" [] [] [] [⟨[("x", 1)]⟩, ⟨[("x", 1)]⟩, ⟨[("x", 2)]⟩]
    (by simp) "x" ⟨1, 2, by decide, by decide, by decide⟩

/-! ### The transition validator: `FlowSpec.next` -/

/-- A value a foreach variable can hold, as `next()` discriminates them
(flowspec.py lines 900-931): an `UnboundedForeachInput` subclass instance, a
`ParallelUBF(num_parallel)` (also an `UnboundedForeachInput`, flowspec.py lines
67-77), a plain iterable (its items already rendered by `_get_foreach_item_value`),
or a value whose iteration raises. -/
inductive FVal where
  | unboundedInput
  | parallelUBF (numParallel : Int)
  | iterable (items : List String)
  | notIterable
  deriving Repr, DecidableEq

/-- The capability test `issubclass(type(foreach_iter), UnboundedForeachInput)`
(flowspec.py line 901). -/
def FVal.isUBF : FVal → Bool
  | .unboundedInput => true
  | .parallelUBF _ => true
  | _ => false

/-- Model of `ParallelUBF.__getitem__` (flowspec.py lines 75-76): `return item or 0` —
the item is `None` for the control task but it is also split 0; a truthy rank maps
to itself and the falsy ranks (`None`, `0`) map to `0`. -/
def parallelUbfGetitem (item : Option Int) : Int :=
  match item with
  | none => 0
  | some r => if r = 0 then 0 else r

/-- A positional argument to `next()`: a bound method (carrying its `__name__`) or
anything whose `__func__.__name__` access fails (flowspec.py lines 848-857). -/
inductive Dst where
  | func (name : String)
  | notAFunc
  deriving Repr, DecidableEq

/-- The `foreach` keyword's value: a string, or a non-string (whose Python
truthiness is recorded, since `next()` tests `if foreach:` before the type check). -/
inductive FKw where
  | str (s : String)
  | nonStr (truthy : Bool)
  deriving Repr, DecidableEq

/-- Python truthiness of the (optional) `foreach` keyword value:
`None` and `""` are falsy. -/
def fkwTruthy : Option FKw → Bool
  | none => false
  | some (.str s) => !(s == "")
  | some (.nonStr t) => t

/-- Graph node view consumed by `next()` (flowspec.py lines 744-762):
`(out_funcs, type)`, keyed by step name. -/
def lookupNode : List (String × List String × String) → String → Option (List String × String)
  | [], _ => none
  | p :: rest, k => if p.1 = k then some p.2 else lookupNode rest k

/-- First-match lookup for the instance attributes holding foreach values
(`getattr(self, foreach)`). -/
def lookupVar : List (String × FVal) → String → Option FVal
  | [], _ => none
  | p :: rest, k => if p.1 = k then some p.2 else lookupVar rest k

/-- The observable per-step state `next()` reads and mutates. `foreachNumSplits` and
`foreachValues` use a double `Option`: the outer layer is attribute-set-ness, the
inner layer is the Python value (which may itself be `None`). -/
structure NextState where
  currentStep : String := ""
  transition : Option (List String × Option FKw) := none
  methods : List String := []
  vars : List (String × FVal) := []
  graph : List (String × List String × String) := []
  unboundedForeach : Bool := false
  foreachNumSplits : Option (Option Nat) := none
  foreachValues : Option (Option (List String)) := none
  foreachVar : Option String := none
  deriving Repr, DecidableEq

/-- The keyword/positional arguments of one `next()` call: the destinations, the
popped `foreach` and `num_parallel` keywords, and the names of any remaining
(unknown) keywords. -/
structure NextArgs where
  dsts : List Dst := []
  foreach : Option FKw := none
  numParallel : Option Int := none
  otherKw : List String := []
  deriving Repr, DecidableEq

/-- The distinct `InvalidNextException` causes of `next()` (plus `keyError` for the
uncaught `KeyError` a graph lookup of an unknown step would raise). -/
inductive NextErr where
  | unknownKeyword (kw : String)
  | multipleTransitionsErr
  | notAFunction (argPos : Nat)
  | unknownStep (name : String)
  | parallelMultipleDst
  | foreachNotString
  | foreachMultipleDst
  | foreachVarMissing (var : String)
  | ubfNotSingle (joinList : List String)
  | ubfNonJoin (node : String) (join : String)
  | foreachNotIterable (var : String)
  | zeroSplits (var : String)
  | noDestination
  | keyError (name : String)
  deriving Repr, DecidableEq

/-- The destination-resolution loop of `next()` (flowspec.py lines 846-864): each
positional argument must expose `__func__.__name__` and the name must satisfy
`hasattr(self, name)`; `argPos` is the 1-based position used in the error. -/
def resolveDsts (methods : List String) : List Dst → Nat → Except NextErr (List String)
  | [], _ => .ok []
  | .notAFunc :: _, i => .error (.notAFunction i)
  | .func name :: rest, i =>
    if methods.contains name then
      match resolveDsts methods rest (i + 1) with
      | .ok funcs => .ok (name :: funcs)
      | .error e => .error e
    else .error (.unknownStep name)

/-- Model of `FlowSpec._validate_ubf_step` (flowspec.py lines 744-762): the destination must
have exactly one outgoing edge and its target must be a `join` node. -/
def validateUbfStep (graph : List (String × List String × String)) (stepName : String) :
    Option NextErr :=
  match lookupNode graph stepName with
  | none => some (.keyError stepName)
  | some node =>
    if node.1.length ≠ 1 then some (.ubfNotSingle node.1)
    else
      match lookupNode graph (node.1.headD "") with
      | none => some (.keyError (node.1.headD ""))
      | some joinNode =>
        if joinNode.2 ≠ "join" then some (.ubfNonJoin stepName (node.1.headD ""))
        else none

/-- The foreach block of `next()` (flowspec.py lines 875-933), entered when the
(possibly rewritten) `foreach` value is truthy.  `ifs` is the
`INCLUDE_FOREACH_STACK` configuration flag.  Returns the error raised (if any)
together with the state as mutated up to that point: `_foreach_values` is set to
`None` on entry, the unbounded flags or the split count/values next, and
`_foreach_var` only on success. -/
def nextForeach (ifs : Bool) (s : NextState) (funcs : List String) (dstsLen : Nat)
    (fkw : FKw) : Option NextErr × NextState :=
  match fkw with
  | .nonStr _ => (some .foreachNotString, s)
  | .str fv =>
    if dstsLen ≠ 1 then (some .foreachMultipleDst, s)
    else
      match lookupVar s.vars fv with
      | none => (some (.foreachVarMissing fv), s)
      | some val =>
        if val.isUBF then
          match validateUbfStep s.graph (funcs.headD "") with
          | some e =>
            (some e, { s with foreachValues := some none,
                              unboundedForeach := true, foreachNumSplits := some none })
          | none =>
            (none, { s with foreachValues := some none, unboundedForeach := true,
                            foreachNumSplits := some none, foreachVar := some fv })
        else
          match val with
          | .iterable items =>
            if items.length = 0 then
              (some (.zeroSplits fv),
               if ifs then
                 { s with foreachValues := some (some items),
                          foreachNumSplits := some (some items.length) }
               else
                 { s with foreachValues := some none,
                          foreachNumSplits := some (some items.length) })
            else
              (none,
               if ifs then
                 { s with foreachValues := some (some items),
                          foreachNumSplits := some (some items.length),
                          foreachVar := some fv }
               else
                 { s with foreachValues := some none,
                          foreachNumSplits := some (some items.length),
                          foreachVar := some fv })
          | _ =>
            (some (.foreachNotIterable fv),
             if ifs then { s with foreachValues := some (some []) }
             else { s with foreachValues := some none })

/-- The tail of `next()` after destination resolution and the `num_parallel`
rewrite: the foreach block, the no-destination check, and the final transition
recording (flowspec.py lines 874-945). -/
def nextTail (ifs : Bool) (s : NextState) (funcs : List String) (dstsLen : Nat)
    (foreach : Option FKw) : Option NextErr × NextState :=
  if fkwTruthy foreach then
    match nextForeach ifs s funcs dstsLen (foreach.getD (.nonStr false)) with
    | (some e, s') => (some e, s')
    | (none, s') => (none, { s' with transition := some (funcs, foreach) })
  else
    match foreach with
    | none =>
      if dstsLen < 1 then (some .noDestination, s)
      else (none, { s with transition := some (funcs, none) })
    | some fk => (none, { s with transition := some (funcs, some fk) })

/-- Model of `FlowSpec.next` (flowspec.py lines 791-945): validates the call and either
raises (first component `some e`, state mutated only up to the raise point) or
records the transition.  `ifs` is the `INCLUDE_FOREACH_STACK` configuration flag
(default `True` in metaflow_config.py line 255). -/
def nextFn (ifs : Bool) (s : NextState) (a : NextArgs) : Option NextErr × NextState :=
  match a.otherKw with
  | kw :: _ => (some (.unknownKeyword kw), s)
  | [] =>
    match s.transition with
    | some _ => (some .multipleTransitionsErr, s)
    | none =>
      match resolveDsts s.methods a.dsts 1 with
      | .error e => (some e, s)
      | .ok funcs =>
        match a.numParallel with
        | some n =>
          if 1 ≤ n then
            if 1 < a.dsts.length then (some .parallelMultipleDst, s)
            else
              nextTail ifs { s with vars := ("_parallel_ubf_iter", .parallelUBF n) :: s.vars }
                funcs a.dsts.length (some (.str "_parallel_ubf_iter"))
          else nextTail ifs s funcs a.dsts.length a.foreach
        | none => nextTail ifs s funcs a.dsts.length a.foreach


theorem nextForeach_vars_eq (ifs : Bool) (s : NextState) (funcs : List String)
    (dstsLen : Nat) (fkw : FKw) :
    (nextForeach ifs s funcs dstsLen fkw).2.vars = s.vars := by
  unfold nextForeach
  repeat' split
  all_goals rfl

theorem nextForeach_transition_eq (ifs : Bool) (s : NextState) (funcs : List String)
    (dstsLen : Nat) (fkw : FKw) :
    (nextForeach ifs s funcs dstsLen fkw).2.transition = s.transition := by
  unfold nextForeach
  repeat' split
  all_goals rfl

theorem validateUbfStep_ne_multi (graph : List (String × List String × String))
    (stepName : String) (e : NextErr) (h : validateUbfStep graph stepName = some e) :
    e ≠ .multipleTransitionsErr := by
  intro hm
  subst hm
  unfold validateUbfStep at h
  repeat' split at h
  all_goals simp at h

theorem nextForeach_err_ne_multi (ifs : Bool) (s : NextState) (funcs : List String)
    (dstsLen : Nat) (fkw : FKw) (e : NextErr)
    (h : (nextForeach ifs s funcs dstsLen fkw).1 = some e) :
    e ≠ .multipleTransitionsErr := by
  intro hm
  subst hm
  unfold nextForeach at h
  repeat' split at h
  all_goals simp at h
  rename_i e' heq
  exact validateUbfStep_ne_multi _ _ e' heq h

theorem resolveDsts_ne_multi (methods : List String) (dsts : List Dst) (i : Nat)
    (e : NextErr) (h : resolveDsts methods dsts i = .error e) :
    e ≠ .multipleTransitionsErr := by
  intro hm
  subst hm
  induction dsts generalizing i with
  | nil => simp [resolveDsts] at h
  | cons d rest ih =>
    cases d with
    | notAFunc => simp [resolveDsts] at h
    | func name =>
      unfold resolveDsts at h
      split at h
      · split at h
        · simp at h
        · rename_i e' heq
          simp at h
          rw [h] at heq
          exact ih _ heq
      · simp at h

theorem nextForeach_foreachVar (ifs : Bool) (s : NextState) (funcs : List String)
    (dstsLen : Nat) (fkw : FKw)
    (hs : (nextForeach ifs s funcs dstsLen fkw).1 = none) :
    ∃ fv, fkw = .str fv ∧ (nextForeach ifs s funcs dstsLen fkw).2.foreachVar = some fv := by
  rcases fkw with fv | t
  · refine ⟨fv, rfl, ?_⟩
    unfold nextForeach at hs ⊢
    repeat' split
    all_goals simp_all
  · simp [nextForeach] at hs

theorem nextTail_vars_eq (ifs : Bool) (s : NextState) (funcs : List String)
    (len : Nat) (foreach : Option FKw) :
    (nextTail ifs s funcs len foreach).2.vars = s.vars := by
  unfold nextTail
  by_cases htr : fkwTruthy foreach = true
  · rw [if_pos htr]
    rcases hfe : nextForeach ifs s funcs len (foreach.getD (.nonStr false)) with ⟨oe, s''⟩
    have hv : s''.vars = s.vars := by
      have h := nextForeach_vars_eq ifs s funcs len (foreach.getD (.nonStr false))
      rw [hfe] at h
      exact h
    cases oe <;> simp [hv]
  · rw [if_neg htr]
    cases foreach with
    | none => by_cases hl : len < 1 <;> simp [hl]
    | some fk => rfl

theorem nextTail_error_transition (ifs : Bool) (s : NextState) (funcs : List String)
    (len : Nat) (foreach : Option FKw) (e : NextErr)
    (he : (nextTail ifs s funcs len foreach).1 = some e) :
    (nextTail ifs s funcs len foreach).2.transition = s.transition := by
  unfold nextTail at he ⊢
  by_cases htr : fkwTruthy foreach = true
  · rw [if_pos htr] at he ⊢
    rcases hfe : nextForeach ifs s funcs len (foreach.getD (.nonStr false)) with ⟨oe, s''⟩
    have htt : s''.transition = s.transition := by
      have h := nextForeach_transition_eq ifs s funcs len (foreach.getD (.nonStr false))
      rw [hfe] at h
      exact h
    rw [hfe] at he
    cases oe with
    | none => exact Option.noConfusion he
    | some e' => exact htt
  · rw [if_neg htr] at he ⊢
    cases foreach with
    | none =>
      by_cases hl : len < 1
      · rw [if_pos hl]
      · rw [if_neg hl] at he
        simp at he
    | some fk => simp at he

theorem nextTail_err_ne_multi (ifs : Bool) (s : NextState) (funcs : List String)
    (len : Nat) (foreach : Option FKw) (e : NextErr)
    (he : (nextTail ifs s funcs len foreach).1 = some e) :
    e ≠ .multipleTransitionsErr := by
  intro hm
  subst hm
  unfold nextTail at he
  by_cases htr : fkwTruthy foreach = true
  · rw [if_pos htr] at he
    rcases hfe : nextForeach ifs s funcs len (foreach.getD (.nonStr false)) with ⟨oe, s''⟩
    rw [hfe] at he
    cases oe with
    | none => exact Option.noConfusion he
    | some e' =>
      have he' : e' = NextErr.multipleTransitionsErr := Option.some.inj he
      subst he'
      exact nextForeach_err_ne_multi ifs s funcs len (foreach.getD (.nonStr false)) _
        (by rw [hfe]) rfl
  · rw [if_neg htr] at he
    cases foreach with
    | none =>
      by_cases hl : len < 1
      · rw [if_pos hl] at he
        simp at he
      · rw [if_neg hl] at he
        simp at he
    | some fk => simp at he

theorem nextTail_success_transition (ifs : Bool) (s : NextState) (funcs : List String)
    (len : Nat) (foreach : Option FKw)
    (htr : fkwTruthy foreach = true)
    (hs : (nextTail ifs s funcs len foreach).1 = none) :
    (nextTail ifs s funcs len foreach).2.transition = some (funcs, foreach) := by
  unfold nextTail at hs ⊢
  rw [if_pos htr] at hs ⊢
  rcases hfe : nextForeach ifs s funcs len (foreach.getD (.nonStr false)) with ⟨oe, s''⟩
  rw [hfe] at hs
  cases oe with
  | none => rfl
  | some e' => exact Option.noConfusion hs

theorem nextTail_preserves (ifs : Bool) (s : NextState) (funcs : List String)
    (len : Nat) (foreach : Option FKw) (htr : fkwTruthy foreach = true) :
    (nextTail ifs s funcs len foreach).1
        = (nextForeach ifs s funcs len (foreach.getD (.nonStr false))).1 ∧
      (nextTail ifs s funcs len foreach).2.unboundedForeach
        = (nextForeach ifs s funcs len (foreach.getD (.nonStr false))).2.unboundedForeach ∧
      (nextTail ifs s funcs len foreach).2.foreachNumSplits
        = (nextForeach ifs s funcs len (foreach.getD (.nonStr false))).2.foreachNumSplits := by
  unfold nextTail
  rw [if_pos htr]
  rcases hfe : nextForeach ifs s funcs len (foreach.getD (.nonStr false)) with ⟨oe, s''⟩
  cases oe <;> simp

theorem nextFn_eq_tail (ifs : Bool) (s : NextState) (a : NextArgs) (funcs : List String)
    (hkw : a.otherKw = []) (ht : s.transition = none)
    (hres : resolveDsts s.methods a.dsts 1 = .ok funcs)
    (hnp : a.numParallel = none) :
    nextFn ifs s a = nextTail ifs s funcs a.dsts.length a.foreach := by
  obtain ⟨dsts, foreach, np, otherKw⟩ := a
  dsimp only at hkw hres hnp ⊢
  subst hkw hnp
  simp [nextFn, ht, hres]

theorem nextFn_eq_tail_smallpar (ifs : Bool) (s : NextState) (a : NextArgs)
    (funcs : List String) (n : Int)
    (hkw : a.otherKw = []) (ht : s.transition = none)
    (hres : resolveDsts s.methods a.dsts 1 = .ok funcs)
    (hnp : a.numParallel = some n) (hn : ¬ 1 ≤ n) :
    nextFn ifs s a = nextTail ifs s funcs a.dsts.length a.foreach := by
  obtain ⟨dsts, foreach, np, otherKw⟩ := a
  dsimp only at hkw hres hnp ⊢
  subst hkw hnp
  simp [nextFn, ht, hres, hn]

theorem nextFn_parallel_multi (ifs : Bool) (s : NextState) (a : NextArgs)
    (funcs : List String) (n : Int)
    (hkw : a.otherKw = []) (ht : s.transition = none)
    (hres : resolveDsts s.methods a.dsts 1 = .ok funcs)
    (hnp : a.numParallel = some n) (hn : 1 ≤ n) (hlen : 1 < a.dsts.length) :
    nextFn ifs s a = (some .parallelMultipleDst, s) := by
  obtain ⟨dsts, foreach, np, otherKw⟩ := a
  dsimp only at hkw hres hnp hlen ⊢
  subst hkw hnp
  simp [nextFn, ht, hres, hn, hlen]

theorem nextFn_parallel_rewrite (ifs : Bool) (s : NextState) (a : NextArgs)
    (funcs : List String) (n : Int)
    (hkw : a.otherKw = []) (ht : s.transition = none)
    (hres : resolveDsts s.methods a.dsts 1 = .ok funcs)
    (hnp : a.numParallel = some n) (hn : 1 ≤ n) (hlen : ¬ 1 < a.dsts.length) :
    nextFn ifs s a = nextTail ifs
      { s with vars := ("_parallel_ubf_iter", .parallelUBF n) :: s.vars }
      funcs a.dsts.length (some (.str "_parallel_ubf_iter")) := by
  obtain ⟨dsts, foreach, np, otherKw⟩ := a
  dsimp only at hkw hres hnp hlen ⊢
  subst hkw hnp
  simp [nextFn, ht, hres, hn, hlen]

theorem validateUbfStep_not_single (graph : List (String × List String × String))
    (st : String) (outs : List String) (ty : String)
    (h : lookupNode graph st = some (outs, ty)) (hne : outs.length ≠ 1) :
    validateUbfStep graph st = some (.ubfNotSingle outs) := by
  unfold validateUbfStep
  rw [h]
  simp [hne]

theorem validateUbfStep_join_check (graph : List (String × List String × String))
    (st : String) (j : String) (ty : String) (outs₂ : List String) (jty : String)
    (h : lookupNode graph st = some ([j], ty)) (hj : lookupNode graph j = some (outs₂, jty)) :
    validateUbfStep graph st = if jty = "join" then none else some (.ubfNonJoin st j) := by
  by_cases hjoin : jty = "join" <;> simp [validateUbfStep, h, hj, hjoin]

theorem nextForeach_ubf_char (ifs : Bool) (s : NextState) (funcs : List String)
    (fv : String) (val : FVal)
    (hval : lookupVar s.vars fv = some val) (hubf : val.isUBF = true) :
    (nextForeach ifs s funcs 1 (.str fv)).1 = validateUbfStep s.graph (funcs.headD "") ∧
      (nextForeach ifs s funcs 1 (.str fv)).2.unboundedForeach = true ∧
      (nextForeach ifs s funcs 1 (.str fv)).2.foreachNumSplits = some none := by
  cases hv : validateUbfStep s.graph (funcs.head?.getD "") with
  | none => simp [nextForeach, hval, hubf, hv]
  | some e => simp [nextForeach, hval, hubf, hv]

theorem nextForeach_iterable_char (ifs : Bool) (s : NextState) (funcs : List String)
    (fv : String) (items : List String)
    (hval : lookupVar s.vars fv = some (.iterable items)) :
    (nextForeach ifs s funcs 1 (.str fv)).2.foreachNumSplits = some (some items.length) ∧
      (items = [] → (nextForeach ifs s funcs 1 (.str fv)).1 = some (.zeroSplits fv)) ∧
      (items ≠ [] → (nextForeach ifs s funcs 1 (.str fv)).1 = none) := by
  by_cases h0 : items = []
  · subst h0
    cases ifs <;> simp [nextForeach, hval, FVal.isUBF]
  · have hl : items.length ≠ 0 := by simpa using h0
    cases ifs <;> simp [nextForeach, hval, FVal.isUBF, hl, h0]

/-! ### Claims about `next()` -/

/-- C2 (counterexample): the claim fails for unknown keywords.  With a transition
already recorded, a second `next()` call that passes an unknown keyword fails with
the unknown-keyword error, not the "multiple transitions" error: the keyword check
(flowspec.py line 830) precedes the transition check (flowspec.py line 839). -/
theorem C2_counterexample :
    (nextFn true { transition := some (["a"], none) } { otherKw := ["boo"] }).1
        = some (.unknownKeyword "boo") ∧
      (nextFn true { transition := some (["a"], none) } { otherKw := ["boo"] }).1
        ≠ some .multipleTransitionsErr := by
  constructor
  · rfl
  · decide

/-- C2 (amended): once a transition is recorded, every further `next()` call fails:
with the "multiple transitions" error whenever no unknown keyword is passed
(whatever the destinations, foreach, or num_parallel arguments), and with the
unknown-keyword error otherwise (still a failure, but a different error). -/
theorem C2_second_call_always_fails (ifs : Bool) (s : NextState) (a : NextArgs)
    (t : List String × Option FKw) (ht : s.transition = some t) :
    (nextFn ifs s a).1.isSome = true ∧
      (a.otherKw = [] → nextFn ifs s a = (some .multipleTransitionsErr, s)) ∧
      (∀ kw rest, a.otherKw = kw :: rest → nextFn ifs s a = (some (.unknownKeyword kw), s)) := by
  obtain ⟨dsts, foreach, np, otherKw⟩ := a
  cases otherKw with
  | nil =>
    refine ⟨?_, fun _ => ?_, ?_⟩
    · simp [nextFn, ht]
    · simp [nextFn, ht]
    · intro kw rest h
      exact absurd h (by simp)
  | cons kw rest =>
    refine ⟨?_, ?_, ?_⟩
    · simp [nextFn]
    · intro h
      exact absurd h (by simp)
    · intro kw' rest' h
      dsimp only at h
      injection h with h1 h2
      subst h1
      rfl

/-- Witness for the amended C2: a second call with one valid destination is rejected
with the "multiple transitions" error. -/
theorem C2_witness :
    ((nextFn true { transition := some (["a"], none), methods := ["b"] }
        { dsts := [Dst.func "b"] }).1.isSome = true) ∧
      ((NextArgs.mk [Dst.func "b"] none none []).otherKw = [] →
        nextFn true { transition := some (["a"], none), methods := ["b"] }
            { dsts := [Dst.func "b"] }
          = (some .multipleTransitionsErr,
             { transition := some (["a"], none), methods := ["b"] })) ∧
      (∀ kw rest, (NextArgs.mk [Dst.func "b"] none none []).otherKw = kw :: rest →
        nextFn true { transition := some (["a"], none), methods := ["b"] }
            { dsts := [Dst.func "b"] }
          = (some (.unknownKeyword kw),
             { transition := some (["a"], none), methods := ["b"] })) :=
  C2_second_call_always_fails true { transition := some (["a"], none), methods := ["b"] }
    { dsts := [Dst.func "b"] } (["a"], none) rfl

/-- C10: every failing `next()` call leaves the recorded transition unchanged — the
transition is assigned only at the very end, after every check has passed — so a
failed call does not count as the step's transition; and a call on an instance whose
transition is still unset can never fail with the "multiple transitions" error, so a
later `next()` on the same instance is not rejected as a duplicate. -/
theorem C10_failed_next_preserves_transition (ifs : Bool) (s : NextState) (a : NextArgs)
    (e : NextErr) (he : (nextFn ifs s a).1 = some e) :
    (nextFn ifs s a).2.transition = s.transition ∧
      (s.transition = none → e ≠ .multipleTransitionsErr) := by
  obtain ⟨dsts, foreach, np, otherKw⟩ := a
  cases otherKw with
  | cons kw rest =>
    refine ⟨rfl, fun _ hm => ?_⟩
    have h1 : NextErr.unknownKeyword kw = e := Option.some.inj he
    rw [← h1] at hm
    exact absurd hm (by simp)
  | nil =>
    cases hst : s.transition with
    | some t =>
      refine ⟨?_, fun h0 => ?_⟩
      · simp [nextFn, hst]
      · exact Option.noConfusion h0
    | none =>
      cases hres : resolveDsts s.methods dsts 1 with
      | error e' =>
        have hfn : nextFn ifs s ⟨dsts, foreach, np, []⟩ = (some e', s) := by
          simp [nextFn, hst, hres]
        rw [hfn] at he ⊢
        have h1 : e' = e := Option.some.inj he
        subst h1
        exact ⟨hst, fun _ => resolveDsts_ne_multi _ _ _ _ hres⟩
      | ok funcs =>
        have key : ∀ (s' : NextState) (foreach' : Option FKw),
            s'.transition = none →
            nextFn ifs s ⟨dsts, foreach, np, []⟩ = nextTail ifs s' funcs dsts.length foreach' →
            (nextFn ifs s ⟨dsts, foreach, np, []⟩).2.transition = none ∧
              (none = (none : Option (List String × Option FKw)) →
                e ≠ .multipleTransitionsErr) := by
          intro s' foreach' hs' hfn
          rw [hfn] at he ⊢
          refine ⟨?_, fun _ => nextTail_err_ne_multi _ _ _ _ _ _ he⟩
          rw [nextTail_error_transition _ _ _ _ _ _ he, hs']
        cases np with
        | none =>
          exact key s foreach hst
            (nextFn_eq_tail ifs s ⟨dsts, foreach, none, []⟩ funcs rfl hst hres rfl)
        | some n =>
          by_cases hn : 1 ≤ n
          · by_cases hlen : 1 < dsts.length
            · have hfn := nextFn_parallel_multi ifs s ⟨dsts, foreach, some n, []⟩
                funcs n rfl hst hres rfl hn hlen
              rw [hfn] at he ⊢
              have h1 : NextErr.parallelMultipleDst = e := Option.some.inj he
              subst h1
              exact ⟨hst, fun _ => by simp⟩
            · exact key { s with vars := ("_parallel_ubf_iter", .parallelUBF n) :: s.vars }
                (some (.str "_parallel_ubf_iter")) hst
                (nextFn_parallel_rewrite ifs s ⟨dsts, foreach, some n, []⟩
                  funcs n rfl hst hres rfl hn hlen)
          · exact key s foreach hst
              (nextFn_eq_tail_smallpar ifs s ⟨dsts, foreach, some n, []⟩
                funcs n rfl hst hres rfl hn)

/-- Witness for C10: a failing call (unknown destination step) on a fresh instance
leaves the transition unset, and its error is not "multiple transitions". -/
theorem C10_witness :
    (nextFn true { methods := [] } { dsts := [Dst.func "b"] }).2.transition
        = NextState.transition { methods := [] } ∧
      (NextState.transition { methods := [] } = none →
        NextErr.unknownStep "b" ≠ .multipleTransitionsErr) :=
  C10_failed_next_preserves_transition true { methods := [] } { dsts := [Dst.func "b"] }
    (.unknownStep "b") rfl

/-- C5: with `num_parallel ≥ 1`, more than one destination is rejected; with one
destination the transition is rewritten to a foreach over a `ParallelUBF(num_parallel)`
value stored under the reserved attribute `_parallel_ubf_iter` (and, if the call
succeeds, recorded as the transition's foreach); indexing a `ParallelUBF` with rank
`None` yields split index 0 and a truthy (non-zero) rank yields the rank itself. -/
theorem C5_num_parallel_rewrite (ifs : Bool) (s : NextState) (a : NextArgs)
    (funcs : List String) (n : Int)
    (hkw : a.otherKw = []) (ht : s.transition = none)
    (hres : resolveDsts s.methods a.dsts 1 = .ok funcs)
    (hnp : a.numParallel = some n) (hn : 1 ≤ n) :
    (1 < a.dsts.length → nextFn ifs s a = (some .parallelMultipleDst, s)) ∧
      (a.dsts.length = 1 →
        lookupVar (nextFn ifs s a).2.vars "_parallel_ubf_iter" = some (.parallelUBF n) ∧
        ((nextFn ifs s a).1 = none →
          (nextFn ifs s a).2.transition = some (funcs, some (.str "_parallel_ubf_iter")))) ∧
      parallelUbfGetitem none = 0 ∧
      (∀ r : Int, r ≠ 0 → parallelUbfGetitem (some r) = r) := by
  refine ⟨fun hlen => nextFn_parallel_multi ifs s a funcs n hkw ht hres hnp hn hlen,
    fun hlen => ?_, rfl, fun r hr => by simp [parallelUbfGetitem, hr]⟩
  have hlen' : ¬ 1 < a.dsts.length := by omega
  have hfn := nextFn_parallel_rewrite ifs s a funcs n hkw ht hres hnp hn hlen'
  rw [hfn]
  constructor
  · rw [nextTail_vars_eq]
    simp [lookupVar]
  · intro hs
    exact nextTail_success_transition ifs _ funcs a.dsts.length
      (some (.str "_parallel_ubf_iter")) (by decide) hs

/-- Witness for C5 at a concrete flow: one destination `work` whose single outgoing
edge targets the join step, `num_parallel = 4`. -/
theorem C5_witness :
    (1 < (NextArgs.mk [Dst.func "work"] none (some 4) []).dsts.length →
        nextFn true
            { methods := ["work"],
              graph := [("work", (["joinstep"], "linear")), ("joinstep", ([], "join"))] }
            { dsts := [Dst.func "work"], numParallel := some 4 }
          = (some .parallelMultipleDst,
             { methods := ["work"],
               graph := [("work", (["joinstep"], "linear")), ("joinstep", ([], "join"))] })) ∧
      ((NextArgs.mk [Dst.func "work"] none (some 4) []).dsts.length = 1 →
        lookupVar (nextFn true
            { methods := ["work"],
              graph := [("work", (["joinstep"], "linear")), ("joinstep", ([], "join"))] }
            { dsts := [Dst.func "work"], numParallel := some 4 }).2.vars "_parallel_ubf_iter"
          = some (.parallelUBF 4) ∧
        ((nextFn true
            { methods := ["work"],
              graph := [("work", (["joinstep"], "linear")), ("joinstep", ([], "join"))] }
            { dsts := [Dst.func "work"], numParallel := some 4 }).1 = none →
          (nextFn true
            { methods := ["work"],
              graph := [("work", (["joinstep"], "linear")), ("joinstep", ([], "join"))] }
            { dsts := [Dst.func "work"], numParallel := some 4 }).2.transition
            = some (["work"], some (.str "_parallel_ubf_iter")))) ∧
      parallelUbfGetitem none = 0 ∧
      (∀ r : Int, r ≠ 0 → parallelUbfGetitem (some r) = r) :=
  C5_num_parallel_rewrite true
    { methods := ["work"],
      graph := [("work", (["joinstep"], "linear")), ("joinstep", ([], "join"))] }
    { dsts := [Dst.func "work"], numParallel := some 4 }
    ["work"] 4 rfl rfl (by rfl) rfl (by decide)

/-- C6: when the foreach value is an `UnboundedForeachInput`, `next()` marks the step
unbounded and sets the split count to `None` (deferred to runtime), and it raises
exactly the error of `_validate_ubf_step`: the call succeeds only if the single
destination has exactly one outgoing edge whose target node has type `join`
(otherwise the `ubfNotSingle` error reports the out list, and the non-join error
names both the destination node and its target). -/
theorem C6_unbounded_foreach_topology (ifs : Bool) (s : NextState) (a : NextArgs)
    (funcs : List String) (fv : String) (val : FVal)
    (hkw : a.otherKw = []) (ht : s.transition = none)
    (hres : resolveDsts s.methods a.dsts 1 = .ok funcs)
    (hnp : a.numParallel = none)
    (hforeach : a.foreach = some (.str fv)) (hfv : fv ≠ "")
    (hlen : a.dsts.length = 1)
    (hval : lookupVar s.vars fv = some val) (hubf : val.isUBF = true) :
    (nextFn ifs s a).2.unboundedForeach = true ∧
      (nextFn ifs s a).2.foreachNumSplits = some none ∧
      (nextFn ifs s a).1 = validateUbfStep s.graph (funcs.headD "") ∧
      (∀ outs ty, lookupNode s.graph (funcs.headD "") = some (outs, ty) →
        outs.length ≠ 1 →
        validateUbfStep s.graph (funcs.headD "") = some (.ubfNotSingle outs)) ∧
      (∀ j ty outs₂ jty, lookupNode s.graph (funcs.headD "") = some ([j], ty) →
        lookupNode s.graph j = some (outs₂, jty) →
        validateUbfStep s.graph (funcs.headD "")
          = if jty = "join" then none else some (.ubfNonJoin (funcs.headD "") j)) := by
  have htr : fkwTruthy (some (.str fv)) = true := by
    simp [fkwTruthy, hfv]
  have hfn := nextFn_eq_tail ifs s a funcs hkw ht hres hnp
  rw [hforeach, hlen] at hfn
  have hpres := nextTail_preserves ifs s funcs 1 (some (.str fv)) htr
  have hchar := nextForeach_ubf_char ifs s funcs fv val hval hubf
  rw [hfn]
  refine ⟨?_, ?_, ?_, ?_, ?_⟩
  · rw [hpres.2.1]
    exact hchar.2.1
  · rw [hpres.2.2]
    exact hchar.2.2
  · rw [hpres.1]
    exact hchar.1
  · intro outs ty h hne
    exact validateUbfStep_not_single s.graph (funcs.headD "") outs ty h hne
  · intro j ty outs₂ jty h hj
    exact validateUbfStep_join_check s.graph (funcs.headD "") j ty outs₂ jty h hj

/-- Witness for C6: an unbounded foreach whose destination's sole outgoing edge
targets a non-join node; the call is marked unbounded with deferred splits and fails
with the topology error naming both `body` and `after`. -/
theorem C6_witness :
    (nextFn true
        { methods := ["body"], vars := [("p", FVal.unboundedInput)],
          graph := [("body", (["after"], "linear")), ("after", ([], "linear"))] }
        { dsts := [Dst.func "body"], foreach := some (.str "p") }).2.unboundedForeach
          = true ∧
      (nextFn true
        { methods := ["body"], vars := [("p", FVal.unboundedInput)],
          graph := [("body", (["after"], "linear")), ("after", ([], "linear"))] }
        { dsts := [Dst.func "body"], foreach := some (.str "p") }).2.foreachNumSplits
          = some none ∧
      (nextFn true
        { methods := ["body"], vars := [("p", FVal.unboundedInput)],
          graph := [("body", (["after"], "linear")), ("after", ([], "linear"))] }
        { dsts := [Dst.func "body"], foreach := some (.str "p") }).1
          = validateUbfStep
              [("body", (["after"], "linear")), ("after", ([], "linear"))]
              (["body"].headD "") ∧
      (∀ outs ty, lookupNode
          [("body", (["after"], "linear")), ("after", ([], "linear"))]
          (["body"].headD "") = some (outs, ty) →
        outs.length ≠ 1 →
        validateUbfStep
            [("body", (["after"], "linear")), ("after", ([], "linear"))]
            (["body"].headD "") = some (.ubfNotSingle outs)) ∧
      (∀ j ty outs₂ jty, lookupNode
          [("body", (["after"], "linear")), ("after", ([], "linear"))]
          (["body"].headD "") = some ([j], ty) →
        lookupNode [("body", (["after"], "linear")), ("after", ([], "linear"))] j
          = some (outs₂, jty) →
        validateUbfStep
            [("body", (["after"], "linear")), ("after", ([], "linear"))]
            (["body"].headD "")
          = if jty = "join" then none else some (.ubfNonJoin (["body"].headD "") j)) :=
  C6_unbounded_foreach_topology true
    { methods := ["body"], vars := [("p", FVal.unboundedInput)],
      graph := [("body", (["after"], "linear")), ("after", ([], "linear"))] }
    { dsts := [Dst.func "body"], foreach := some (.str "p") }
    ["body"] "p" FVal.unboundedInput rfl rfl (by rfl) rfl rfl (by decide) rfl (by rfl) rfl

/-- C7: a bounded foreach over an iterable records the number of items as the split
count; zero items raise the zero-split error, and a non-empty iterable succeeds with
the transition recorded as a foreach over the variable. -/
theorem C7_bounded_foreach_split_count (ifs : Bool) (s : NextState) (a : NextArgs)
    (funcs : List String) (fv : String) (items : List String)
    (hkw : a.otherKw = []) (ht : s.transition = none)
    (hres : resolveDsts s.methods a.dsts 1 = .ok funcs)
    (hnp : a.numParallel = none)
    (hforeach : a.foreach = some (.str fv)) (hfv : fv ≠ "")
    (hlen : a.dsts.length = 1)
    (hval : lookupVar s.vars fv = some (.iterable items)) :
    (nextFn ifs s a).2.foreachNumSplits = some (some items.length) ∧
      (items = [] → (nextFn ifs s a).1 = some (.zeroSplits fv)) ∧
      (items ≠ [] → (nextFn ifs s a).1 = none ∧
        (nextFn ifs s a).2.transition = some (funcs, some (.str fv))) := by
  have htr : fkwTruthy (some (.str fv)) = true := by
    simp [fkwTruthy, hfv]
  have hfn := nextFn_eq_tail ifs s a funcs hkw ht hres hnp
  rw [hforeach, hlen] at hfn
  have hpres := nextTail_preserves ifs s funcs 1 (some (.str fv)) htr
  have hchar := nextForeach_iterable_char ifs s funcs fv items hval
  rw [hfn]
  refine ⟨?_, ?_, ?_⟩
  · rw [hpres.2.2]
    exact hchar.1
  · intro h0
    rw [hpres.1]
    exact hchar.2.1 h0
  · intro h0
    have hok : (nextTail ifs s funcs 1 (some (.str fv))).1 = none := by
      rw [hpres.1]
      exact hchar.2.2 h0
    exact ⟨hok, nextTail_success_transition ifs s funcs 1 (some (.str fv)) htr hok⟩

/-- Witness for C7: the spec's example — `self.x = ["1","2","3"]` succeeds with
split count 3 and records the foreach transition, and `self.x = []` would raise the
zero-split error (the empty-list conjunct is vacuous here and exercised by a second
application below on the empty variable). -/
theorem C7_witness :
    ((nextFn true { methods := ["stepA"], vars := [("x", FVal.iterable ["1", "2", "3"])] }
        { dsts := [Dst.func "stepA"], foreach := some (.str "x") }).2.foreachNumSplits
          = some (some (["1", "2", "3"] : List String).length) ∧
      ((["1", "2", "3"] : List String) = [] →
        (nextFn true { methods := ["stepA"], vars := [("x", FVal.iterable ["1", "2", "3"])] }
          { dsts := [Dst.func "stepA"], foreach := some (.str "x") }).1
            = some (.zeroSplits "x")) ∧
      ((["1", "2", "3"] : List String) ≠ [] →
        (nextFn true { methods := ["stepA"], vars := [("x", FVal.iterable ["1", "2", "3"])] }
          { dsts := [Dst.func "stepA"], foreach := some (.str "x") }).1 = none ∧
        (nextFn true { methods := ["stepA"], vars := [("x", FVal.iterable ["1", "2", "3"])] }
          { dsts := [Dst.func "stepA"], foreach := some (.str "x") }).2.transition
            = some (["stepA"], some (.str "x")))) ∧
    ((nextFn true { methods := ["stepA"], vars := [("x", FVal.iterable [])] }
        { dsts := [Dst.func "stepA"], foreach := some (.str "x") }).2.foreachNumSplits
          = some (some ([] : List String).length) ∧
      (([] : List String) = [] →
        (nextFn true { methods := ["stepA"], vars := [("x", FVal.iterable [])] }
          { dsts := [Dst.func "stepA"], foreach := some (.str "x") }).1
            = some (.zeroSplits "x")) ∧
      (([] : List String) ≠ [] →
        (nextFn true { methods := ["stepA"], vars := [("x", FVal.iterable [])] }
          { dsts := [Dst.func "stepA"], foreach := some (.str "x") }).1 = none ∧
        (nextFn true { methods := ["stepA"], vars := [("x", FVal.iterable [])] }
          { dsts := [Dst.func "stepA"], foreach := some (.str "x") }).2.transition
            = some (["stepA"], some (.str "x")))) :=
  ⟨C7_bounded_foreach_split_count true
      { methods := ["stepA"], vars := [("x", FVal.iterable ["1", "2", "3"])] }
      { dsts := [Dst.func "stepA"], foreach := some (.str "x") }
      ["stepA"] "x" ["1", "2", "3"] rfl rfl (by rfl) rfl rfl (by decide) rfl (by rfl),
    C7_bounded_foreach_split_count true
      { methods := ["stepA"], vars := [("x", FVal.iterable [])] }
      { dsts := [Dst.func "stepA"], foreach := some (.str "x") }
      ["stepA"] "x" [] rfl rfl (by rfl) rfl rfl (by decide) rfl (by rfl)⟩

/-! ### The foreach context: `foreach_stack`, `index`, `input` -/

/-- One frame of the task's foreach stack, as consumed by `foreach_stack` and
`_find_input` (flowspec.py lines 536-618): the foreach variable's name, the task's
index at that level, and the number of splits at that level.  The stack itself is
assembled by the external scheduler and read-only here. -/
structure ForeachFrame where
  var : String
  index : Nat
  numSplits : Nat
  deriving Repr, DecidableEq

/-- The task state read by the foreach context: the foreach stack and the instance
attributes holding the foreach variables' sequences (`getattr(self, frame.var)`).
`V` is the element type of the foreach sequences. -/
structure TaskState (V : Type) where
  foreachStack : List ForeachFrame
  attrs : List (String × List V)

/-- Attribute lookup for foreach variables: `none` models an `AttributeError`. -/
def lookupAttr {V : Type} : List (String × List V) → String → Option (List V)
  | [], _ => none
  | p :: rest, k => if p.1 = k then some p.2 else lookupAttr rest k

/-- Model of `FlowSpec._find_input` (flowspec.py lines 588-618) without its memoization cache
(the cache is only ever filled with the value computed here, so it does not change
the result).  The outer `Option` models an uncaught `IndexError` when a frame's
index is out of range of its sequence; `some none` is the Python `None` result
(empty stack, or `AttributeError` on the foreach variable — the join-step case);
`some (some v)` is the resolved item.  Sequences are modelled as lists, which
support indexed access, so the `islice` fallback for index-less iterables is never
taken. -/
def findInput {V : Type} (ts : TaskState V) (stackIndex : Nat) : Option (Option V) :=
  match ts.foreachStack.get? stackIndex with
  | none => if ts.foreachStack.isEmpty then some none else none
  | some frame =>
    match lookupAttr ts.attrs frame.var with
    | none => some none
    | some items =>
      match items.get? frame.index with
      | none => none
      | some v => some (some v)

/-- The `index` property (flowspec.py lines 497-515): the last frame's index, or
`None` outside any foreach. -/
def indexProp {V : Type} (ts : TaskState V) : Option Nat :=
  ts.foreachStack.getLast?.map ForeachFrame.index

/-- The `input` property (flowspec.py lines 517-534): `_find_input()` at the last
stack position. -/
def inputProp {V : Type} (ts : TaskState V) : Option (Option V) :=
  findInput ts (ts.foreachStack.length - 1)

/-- The list comprehension of `foreach_stack` (flowspec.py lines 583-586), with the
uncaught `IndexError` of `_find_input` propagated. -/
def foreachStackAux {V : Type} (ts : TaskState V) :
    Nat → List ForeachFrame → Option (List (Nat × Nat × Option V))
  | _, [] => some []
  | i, f :: rest =>
    match findInput ts i with
    | none => none
    | some v =>
      match foreachStackAux ts (i + 1) rest with
      | none => none
      | some tail => some ((f.index, f.numSplits, v) :: tail)

/-- Model of `FlowSpec.foreach_stack` (flowspec.py lines 536-586): one
`(index, num_splits, value)` tuple per frame, outermost first. -/
def foreach_stack {V : Type} (ts : TaskState V) : Option (List (Nat × Nat × Option V)) :=
  foreachStackAux ts 0 ts.foreachStack

theorem foreachStackAux_spec {V : Type} (ts : TaskState V) :
    ∀ (frames : List ForeachFrame) (i : Nat) (res : List (Nat × Nat × Option V)),
      foreachStackAux ts i frames = some res →
      res.length = frames.length ∧
        ∀ j frame, frames.get? j = some frame →
          ∃ v, findInput ts (i + j) = some v ∧
            res.get? j = some (frame.index, frame.numSplits, v) := by
  intro frames
  induction frames with
  | nil =>
    intro i res h
    simp [foreachStackAux] at h
    subst h
    simp
  | cons f rest ih =>
    intro i res h
    unfold foreachStackAux at h
    cases hv : findInput ts i with
    | none => rw [hv] at h; exact Option.noConfusion h
    | some v =>
      rw [hv] at h
      cases htail : foreachStackAux ts (i + 1) rest with
      | none => rw [htail] at h; exact Option.noConfusion h
      | some tail =>
        rw [htail] at h
        have hres : (f.index, f.numSplits, v) :: tail = res := Option.some.inj h
        subst hres
        obtain ⟨hlen, hall⟩ := ih (i + 1) tail htail
        refine ⟨by simp [hlen], ?_⟩
        intro j frame hj
        cases j with
        | zero =>
          have hf : f = frame := by simpa using hj
          subst hf
          exact ⟨v, by simpa using hv, by simp⟩
        | succ j' =>
          have hj' : rest.get? j' = some frame := by simpa using hj
          obtain ⟨v', hv', hr'⟩ := hall j' frame hj'
          refine ⟨v', ?_, by simpa using hr'⟩
          have harith : i + (j' + 1) = i + 1 + j' := by omega
          rw [harith]
          exact hv'

/-- C8: when `foreach_stack()` returns (no frame indexes out of range of its
sequence), it returns exactly one `(index, num_splits, value)` tuple per frame of
the foreach stack, in order from outermost to innermost, and for a non-empty stack
the last tuple's first component is the `index` property and its last component is
the `input` property. -/
theorem C8_foreach_stack_shape {V : Type} (ts : TaskState V)
    (res : List (Nat × Nat × Option V)) (h : foreach_stack ts = some res) :
    res.length = ts.foreachStack.length ∧
      (∀ i frame, ts.foreachStack.get? i = some frame →
        ∃ v, findInput ts i = some v ∧
          res.get? i = some (frame.index, frame.numSplits, v)) ∧
      (ts.foreachStack ≠ [] →
        res.getLast?.map (fun t => t.1) = indexProp ts ∧
        res.getLast?.map (fun t => t.2.2) = inputProp ts) := by
  obtain ⟨hlen, hall⟩ := foreachStackAux_spec ts ts.foreachStack 0 res h
  have hall' : ∀ i frame, ts.foreachStack.get? i = some frame →
      ∃ v, findInput ts i = some v ∧ res.get? i = some (frame.index, frame.numSplits, v) := by
    intro i frame hi
    simpa using hall i frame hi
  refine ⟨hlen, hall', ?_⟩
  intro hne
  have hsl : ts.foreachStack.getLast? = ts.foreachStack.get? (ts.foreachStack.length - 1) := by
    rw [List.getLast?_eq_getElem?, List.get?_eq_getElem?]
  obtain ⟨lastFrame, hlf⟩ := Option.isSome_iff_exists.mp
    (by rw [List.getLast?_isSome]; exact hne)
  have hget : ts.foreachStack.get? (ts.foreachStack.length - 1) = some lastFrame := by
    rw [← hsl]
    exact hlf
  obtain ⟨v, hv, hres⟩ := hall' _ lastFrame hget
  have hrl : res.getLast? = res.get? (res.length - 1) := by
    rw [List.getLast?_eq_getElem?, List.get?_eq_getElem?]
  have hlen' : res.length - 1 = ts.foreachStack.length - 1 := by rw [hlen]
  have hresLast : res.getLast? = some (lastFrame.index, lastFrame.numSplits, v) := by
    rw [hrl, hlen']
    exact hres
  constructor
  · rw [hresLast, indexProp, hlf]
    rfl
  · rw [hresLast]
    simp [inputProp, hv]

/-- Witness for C8: a task three levels deep (`x = ["a","b","c"]` at index 0,
`y = ["d","e","f","g"]` at index 1, `z = ["h","i"]` at index 1). -/
theorem C8_witness :
    ([(0, 3, some "a"), (1, 4, some "e"), (1, 2, some "i")] :
          List (Nat × Nat × Option String)).length
        = (TaskState.mk [⟨"x", 0, 3⟩, ⟨"y", 1, 4⟩, ⟨"z", 1, 2⟩]
            [("x", ["a", "b", "c"]), ("y", ["d", "e", "f", "g"]), ("z", ["h", "i"])]
            : TaskState String).foreachStack.length ∧
      (∀ i frame, (TaskState.mk [⟨"x", 0, 3⟩, ⟨"y", 1, 4⟩, ⟨"z", 1, 2⟩]
            [("x", ["a", "b", "c"]), ("y", ["d", "e", "f", "g"]), ("z", ["h", "i"])]
            : TaskState String).foreachStack.get? i = some frame →
        ∃ v, findInput (TaskState.mk [⟨"x", 0, 3⟩, ⟨"y", 1, 4⟩, ⟨"z", 1, 2⟩]
            [("x", ["a", "b", "c"]), ("y", ["d", "e", "f", "g"]), ("z", ["h", "i"])]) i
              = some v ∧
          ([(0, 3, some "a"), (1, 4, some "e"), (1, 2, some "i")] :
              List (Nat × Nat × Option String)).get? i
            = some (frame.index, frame.numSplits, v)) ∧
      ((TaskState.mk [⟨"x", 0, 3⟩, ⟨"y", 1, 4⟩, ⟨"z", 1, 2⟩]
            [("x", ["a", "b", "c"]), ("y", ["d", "e", "f", "g"]), ("z", ["h", "i"])]
            : TaskState String).foreachStack ≠ [] →
        ([(0, 3, some "a"), (1, 4, some "e"), (1, 2, some "i")] :
            List (Nat × Nat × Option String)).getLast?.map (fun t => t.1)
          = indexProp (TaskState.mk [⟨"x", 0, 3⟩, ⟨"y", 1, 4⟩, ⟨"z", 1, 2⟩]
              [("x", ["a", "b", "c"]), ("y", ["d", "e", "f", "g"]), ("z", ["h", "i"])]) ∧
        ([(0, 3, some "a"), (1, 4, some "e"), (1, 2, some "i")] :
            List (Nat × Nat × Option String)).getLast?.map (fun t => t.2.2)
          = inputProp (TaskState.mk [⟨"x", 0, 3⟩, ⟨"y", 1, 4⟩, ⟨"z", 1, 2⟩]
              [("x", ["a", "b", "c"]), ("y", ["d", "e", "f", "g"]), ("z", ["h", "i"])])) :=
  C8_foreach_stack_shape
    (TaskState.mk [⟨"x", 0, 3⟩, ⟨"y", 1, 4⟩, ⟨"z", 1, 2⟩]
      [("x", ["a", "b", "c"]), ("y", ["d", "e", "f", "g"]), ("z", ["h", "i"])])
    [(0, 3, some "a"), (1, 4, some "e"), (1, 2, some "i")] (by rfl)

/-! ### The config-mutation pipeline latch: `_process_config_decorators` -/

/-- The externally observable actions of `_process_config_decorators`
(flowspec.py lines 244-355), in execution order: initializing a parameter
(`param.init`, with the quiet flag `not process_configs` on the fast path),
resolving and storing a config parameter's value (`param._store_value` +
`setattr`), running a flow-level mutator's `pre_mutate`, running a step-level
mutator's `pre_mutate`, replacing the flow context, and re-deriving the graph
(`_init_graph`). -/
inductive CfgEffect where
  | initParam (var : String) (quiet : Bool)
  | storeConfigValue (var : String)
  | runFlowMutator (i : Nat)
  | runStepMutator (step : String) (i : Nat)
  | replaceFlowContext
  | reinitGraph
  deriving Repr, DecidableEq

/-- A declared parameter as `_get_parameters` yields it: its variable name and
whether it is a config parameter (`IS_CONFIG_PARAMETER` or an already-converted
`ConfigValue`). -/
structure ParamInfo where
  var : String
  isConfig : Bool
  deriving Repr, DecidableEq

/-- A step as the pipeline sees it: its name and how many config decorators
(step mutators) it declares. -/
structure StepInfo where
  name : String
  configDecorators : Nat
  deriving Repr, DecidableEq

/-- The class-level state consulted by `_process_config_decorators`: the
`_configs_processed` latch (`FlowSpecMeta._init_attrs`, flowspec.py lines 114-118),
the registered flow mutators (`_FlowState.FLOW_MUTATORS`), the steps, and the
declared parameters. -/
structure FlowClsState where
  configsProcessed : Bool
  flowMutators : Nat
  steps : List StepInfo
  params : List ParamInfo
  deriving Repr, DecidableEq

/-- Model of `FlowSpec._process_config_decorators` (flowspec.py lines 244-355), abstracted to
its latch discipline and effect trace: if the latch is set, return `None`
immediately with no effects; otherwise set the latch, then either take the fast
path (no flow mutators and no step config decorators, or `process_configs` false:
initialize the non-config parameters only and return `None`) or the slow path
(store every config value, run the flow mutators then the step mutators in order,
initialize the non-config parameters, replace the flow context, re-derive the
graph, and return the class).  The `Bool` in the result records whether the class
(rather than `None`) was returned. -/
def processConfigDecorators (c : FlowClsState) (processConfigs : Bool) :
    FlowClsState × List CfgEffect × Bool :=
  if c.configsProcessed then (c, [], false)
  else
    if !processConfigs
        || (c.flowMutators = 0 && c.steps.all (fun st => st.configDecorators = 0)) then
      ({ c with configsProcessed := true },
       (c.params.filter (fun p => !p.isConfig)).map
         (fun p => .initParam p.var (!processConfigs)),
       false)
    else
      ({ c with configsProcessed := true },
       (c.params.filter (fun p => p.isConfig)).map (fun p => .storeConfigValue p.var)
         ++ (List.range c.flowMutators).map .runFlowMutator
         ++ c.steps.flatMap
             (fun st => (List.range st.configDecorators).map (.runStepMutator st.name))
         ++ (c.params.filter (fun p => !p.isConfig)).map (fun p => .initParam p.var false)
         ++ [.replaceFlowContext, .reinitGraph],
       true)

/-- C9: once the latch is set, every further invocation of the pipeline is a no-op:
it returns `None` immediately, performs no effect (no config resolution, no mutator,
no graph re-derivation), and leaves the class state unchanged; in particular any
call made after any first call is such a no-op, since every path of a first call
sets the latch. -/
theorem C9_pipeline_latched_noop (c : FlowClsState) (pc : Bool)
    (h : c.configsProcessed = true) :
    processConfigDecorators c pc = (c, [], false) ∧
      ∀ (c' : FlowClsState) (pc₁ pc₂ : Bool),
        processConfigDecorators (processConfigDecorators c' pc₁).1 pc₂
          = ((processConfigDecorators c' pc₁).1, [], false) := by
  constructor
  · simp [processConfigDecorators, h]
  · intro c' pc₁ pc₂
    have hset : (processConfigDecorators c' pc₁).1.configsProcessed = true := by
      unfold processConfigDecorators
      by_cases h1 : c'.configsProcessed
      · simp [h1]
      · simp [h1]
        split <;> simp
    generalize hc2 : (processConfigDecorators c' pc₁).1 = c₂ at hset ⊢
    unfold processConfigDecorators
    rw [if_pos hset]

/-- Witness for C9: a latched class state with one flow mutator and one parameter;
the call is a no-op and double invocation from the unlatched state is a no-op the
second time. -/
theorem C9_witness :
    processConfigDecorators
        ⟨true, 1, [⟨"stepA", 1⟩], [⟨"alpha", false⟩]⟩ true
      = (⟨true, 1, [⟨"stepA", 1⟩], [⟨"alpha", false⟩]⟩, [], false) ∧
      ∀ (c' : FlowClsState) (pc₁ pc₂ : Bool),
        processConfigDecorators (processConfigDecorators c' pc₁).1 pc₂
          = ((processConfigDecorators c' pc₁).1, [], false) :=
  C9_pipeline_latched_noop ⟨true, 1, [⟨"stepA", 1⟩], [⟨"alpha", false⟩]⟩ true rfl

end Metaflow
